import Mathlib

/-!
# A shallow embedding of the `workspaces-rs` runtime-context and RPC layer

This file embeds, in Lean, the data model and operations of the
`workspaces` crate (files `src/runtime/mod.rs` and `src/rpc/tool.rs`):
the `RuntimeFlavor` backend descriptor, the task-scoped context registry,
the RPC-address and credential-path computations, the `send_tx` retry
loop, state-item decoding (`into_state_map`), random dev-account
generation, and the out-of-band account-creation request.

Conventions of the embedding:
* Rust machine integers (`u16`, `usize`) are modelled as `Nat`; where a
  Rust range matters it appears as an explicit hypothesis.
* Rust byte vectors (`Vec<u8>`) are `List Nat` with entries `< 256`;
  wire-level base64 text is a `List Nat` of ASCII codes; decoded keys
  (Rust `String`) are `List Nat` of Unicode code points.
* Fallible Rust code (`Result`, `?`) becomes `Except`/`Option`; a Rust
  `panic!`/`expect`/`unimplemented!` is modelled as the absent value
  (`none`) or an error, as noted at each definition.
* Network effects are modelled by passing the environment's behaviour
  (the backend's successive responses, the HTTP transport function)
  as an explicit argument.
-/

/-! ## Decimal rendering (model of Rust's `Display` for unsigned integers) -/

/-- The character for a single decimal digit value (`0 ↦ '0'`, ..., `9 ↦ '9'`). -/
def digitChar10 (n : Nat) : Char := Char.ofNat (48 + n)

/-- Worker for `natDigits`, structurally recursive on a fuel bound so that
it evaluates by kernel reduction; any `fuel > n` yields the digits of `n`. -/
def natDigitsCore (fuel n : Nat) : List Char :=
  match fuel with
  | 0 => []
  | fuel + 1 =>
    if n < 10 then [digitChar10 n]
    else natDigitsCore fuel (n / 10) ++ [digitChar10 (n % 10)]

/-- The decimal digit characters of a natural number, most significant first.
Models Rust's `format!("{}", n)` for an unsigned integer. -/
def natDigits (n : Nat) : List Char := natDigitsCore (n + 1) n

/-- Decimal rendering of a natural number as a `String`. -/
def natToString (n : Nat) : String := ⟨natDigits n⟩

/-- The numeric value denoted by a list of decimal digit characters. -/
def digitsVal (l : List Char) : Nat :=
  l.foldl (fun a c => a * 10 + (c.toNat - 48)) 0

/-! ## `RuntimeFlavor` (src/runtime/mod.rs, lines 24-66) -/

/-- The backend descriptor: `enum RuntimeFlavor { Mainnet, Testnet, Sandbox(u16) }`.
The sandbox port (`u16`) is modelled as a `Nat`. -/
inductive RuntimeFlavor where
  | Mainnet : RuntimeFlavor
  | Testnet : RuntimeFlavor
  | Sandbox : Nat → RuntimeFlavor
deriving DecidableEq, Repr

/-- Modelled from the spec: `TestnetRuntime::RPC_URL`, the fixed well-known
RPC address of the remote testing network. `src/runtime/online.rs` is not part
of the given sources; the spec describes it only as "a fixed well-known URL". -/
def TestnetRuntime.RPC_URL : String := "https://rpc.testnet.near.org"

/-- `RuntimeFlavor::rpc_addr` (src/runtime/mod.rs lines 32-38).
`Sandbox(port)` formats `http://localhost:{port}`; `Testnet` returns the
fixed testnet URL; the `Mainnet` arm is `unimplemented!()`, modelled as `none`. -/
def RuntimeFlavor.rpc_addr : RuntimeFlavor → Option String
  | .Sandbox port => some ("http://localhost:" ++ natToString port)
  | .Testnet => some TestnetRuntime.RPC_URL
  | .Mainnet => none

/-- `RuntimeFlavor::name` (src/runtime/mod.rs lines 40-46). -/
def RuntimeFlavor.name : RuntimeFlavor → String
  | .Sandbox _ => "sandbox"
  | .Mainnet => "mainnet"
  | .Testnet => "testnet"

/-- `SANDBOX_CREDENTIALS_DIR` (src/runtime/mod.rs line 19). -/
def SANDBOX_CREDENTIALS_DIR : String := ".near-credentials/sandbox/"

/-- `TESTNET_CREDENTIALS_DIR` (src/runtime/mod.rs line 20). -/
def TESTNET_CREDENTIALS_DIR : String := ".near-credentials/testnet/"

/-- `PathBuf::push` for a relative component: appends with a `/` separator
unless the base already ends in one. -/
def pathPush (base comp : String) : String :=
  if base.data.getLast? = some '/' then base ++ comp else base ++ "/" ++ comp

/-- `RuntimeFlavor::keystore_path` (src/runtime/mod.rs lines 48-59).
The home directory is passed explicitly (`dirs::home_dir()` may be absent,
which the source turns into the error "Could not get HOME_DIR"); the
`Mainnet` arm is `unimplemented!()`, modelled as a distinct error. -/
def RuntimeFlavor.keystore_path (flavor : RuntimeFlavor) (home : Option String) :
    Except String String :=
  match home with
  | none => .error "Could not get HOME_DIR"
  | some h =>
    match flavor with
    | .Sandbox _ => .ok (pathPush h SANDBOX_CREDENTIALS_DIR)
    | .Testnet => .ok (pathPush h TESTNET_CREDENTIALS_DIR)
    | .Mainnet => .error "unimplemented"

/-! ## Context registry (src/runtime/context.rs)

Modelled from the spec: `src/runtime/context.rs` is not among the given
sources. Per spec §4.2 the registry exposes `install` and `current`, and its
storage "is scoped to the specific task/thread of execution that installed
it, not global to the whole process". We model it as an association list
keyed by the identifier of the worker context (thread) that installed the
descriptor; `install` prepends and `current` reads the most recent
installation of the calling worker context. -/

/-- The registry state: most-recent-first association of worker-context ids
to installed backend descriptors. -/
abbrev Registry : Type := List (Nat × RuntimeFlavor)

/-- Modelled from the spec: installing a descriptor for worker context `t`. -/
def ctxInstall (reg : Registry) (t : Nat) (d : RuntimeFlavor) : Registry :=
  (t, d) :: reg

/-- Modelled from the spec: `context::current()` as observed from worker
context `t` — the most recently installed descriptor of that context, or
`none` ("missing runtime") when the context installed nothing. -/
def ctxCurrent (reg : Registry) (t : Nat) : Option RuntimeFlavor :=
  (List.find? (fun p => p.1 == t) reg).map (fun p => p.2)

/-- A sequence of `install` operations (one per scope, interleaved in any
order) applied to a registry. -/
def applyInstalls (ops : List (Nat × RuntimeFlavor)) (reg : Registry) : Registry :=
  ops.foldl (fun r o => ctxInstall r o.1 o.2) reg

/-- `rt_current_addr` (src/rpc/tool.rs lines 26-30): resolve the current
descriptor of the calling worker context and compute its RPC address.
The `expect(MISSING_RUNTIME_ERROR)` panic and the `unimplemented!()` panic
inside `rpc_addr` are both modelled as `none`. -/
def rt_current_addr (reg : Registry) (t : Nat) : Option String :=
  (ctxCurrent reg t).bind RuntimeFlavor.rpc_addr

/-! ## Credential path resolution (src/rpc/tool.rs lines 90-100) -/

/-- The filesystem state visible to `credentials_filepath`: the set of
directories known to exist and the files with their contents. -/
structure FS where
  dirs : List String
  files : List (String × String)
deriving DecidableEq, Repr

/-- `std::fs::create_dir_all`: records the directory (and is a no-op on the
files). Filesystem failure is not modelled; the source propagates it as-is. -/
def createDirAll (fs : FS) (path : String) : FS :=
  { fs with dirs := path :: fs.dirs }

/-- `credentials_filepath` (src/rpc/tool.rs lines 90-100): resolve the current
backend's keystore directory, create it if missing, and append
`{account_id}.json`. Returns the path and the updated filesystem; the
credential file itself is neither read nor written. -/
def credentials_filepath (flavor : RuntimeFlavor) (home : Option String)
    (account_id : String) (fs : FS) : Except String (String × FS) :=
  match flavor.keystore_path home with
  | .error e => .error e
  | .ok p => .ok (pathPush p (account_id ++ ".json"), createDirAll fs p)

/-- The credential path as the spec's §6 text reads, for comparison with the
source's computation: `<home>/.<backend-kind>-credentials/<backend-kind>/<account-id>.json`. -/
def specCredentialsPath (kind home account_id : String) : String :=
  home ++ "/." ++ kind ++ "-credentials/" ++ kind ++ "/" ++ account_id ++ ".json"

/-! ## Transaction submission (src/rpc/tool.rs lines 59-88) -/

/-- The payload of a successful `FinalExecutionOutcomeView`, left abstract. -/
abbrev Outcome : Type := Nat

/-- The errors a `broadcast_tx_commit` call can report. `timeoutError` stands
for `JsonRpcError::ServerError(JsonRpcServerError::HandlerError(RpcTransactionError::TimeoutError))`,
the one variant `send_tx` singles out; every other `JsonRpcError` shape is
collapsed into `otherErr` with its debug rendering. -/
inductive RpcErr where
  | timeoutError : RpcErr
  | otherErr : String → RpcErr
deriving DecidableEq, Repr

/-- A single response of the backend to broadcasting the signed transaction. -/
abbrev TxResponse : Type := Except RpcErr Outcome

/-- The `matches!(err, ...TimeoutError)` test of src/rpc/tool.rs lines 70-75. -/
def isTimeout : TxResponse → Bool
  | .error .timeoutError => true
  | _ => false

/-- The debug rendering `format!("Error transaction: {:?}", e)` applied by
`map_err` at src/rpc/tool.rs line 87. -/
def fmtTxError : RpcErr → String
  | .timeoutError => "Error transaction: TimeoutError"
  | .otherErr s => "Error transaction: " ++ s

/-- `send_tx` (src/rpc/tool.rs lines 59-88). The backend's behaviour for the
one signed transaction being retried is the list of responses it would give
to successive attempts. The loop re-broadcasts (`continue`) while the
response is the timeout-class error and breaks on the first other response;
the result pairs the terminal response (with errors formatted by `map_err`)
with the number of attempts performed. `none` models non-termination (every
provided response was a timeout). The `tokio::time::sleep` before returning
does not affect the value. -/
def send_tx (responses : List TxResponse) : Option (Except String Outcome × Nat) :=
  match responses with
  | [] => none
  | r :: rest =>
    if isTimeout r then
      (send_tx rest).map (fun p => (p.1, p.2 + 1))
    else
      some (r.mapError fmtTxError, 1)

/-! ## Base64 (model of the `base64` crate's standard padded alphabet) -/

/-- The base64 alphabet: sextet value to ASCII code
(`A`-`Z`, `a`-`z`, `0`-`9`, `+`, `/`). -/
def enc64 (s : Nat) : Nat :=
  if s < 26 then 65 + s
  else if s < 52 then 97 + (s - 26)
  else if s < 62 then 48 + (s - 52)
  else if s = 62 then 43
  else 47

/-- Inverse of the base64 alphabet; `none` on any ASCII code outside it
(including the pad character `=`). -/
def dec64 (c : Nat) : Option Nat :=
  if 65 ≤ c ∧ c ≤ 90 then some (c - 65)
  else if 97 ≤ c ∧ c ≤ 122 then some (26 + (c - 97))
  else if 48 ≤ c ∧ c ≤ 57 then some (52 + (c - 48))
  else if c = 43 then some 62
  else if c = 47 then some 63
  else none

/-- Standard padded base64 encoding of a byte list, as ASCII codes: three
bytes become four alphabet characters, a trailing one or two bytes are
padded with `=` (ASCII 61). Models `base64::encode`. -/
def b64encode (bs : List Nat) : List Nat :=
  match bs with
  | [] => []
  | [a] => [enc64 (a / 4), enc64 (a % 4 * 16), 61, 61]
  | [a, b] => [enc64 (a / 4), enc64 (a % 4 * 16 + b / 16), enc64 (b % 16 * 4), 61]
  | a :: b :: c :: rest =>
    enc64 (a / 4) :: enc64 (a % 4 * 16 + b / 16) :: enc64 (b % 16 * 4 + c / 64) ::
      enc64 (c % 64) :: b64encode rest

/-- Standard padded base64 decoding of ASCII codes into bytes. Models
`base64::decode`: the length must be a multiple of four, `=` may appear only
as the final one or two characters, every other character must belong to the
alphabet, and the unused bits of a final partial group must be zero
(`DecodeError::InvalidLastSymbol`). -/
def b64decode : List Nat → Option (List Nat)
  | [] => some []
  | c1 :: c2 :: c3 :: c4 :: rest =>
    (dec64 c1).bind (fun s1 =>
      (dec64 c2).bind (fun s2 =>
        if c3 = 61 then
          if c4 = 61 ∧ rest = [] ∧ s2 % 16 = 0 then some [s1 * 4 + s2 / 16] else none
        else
          (dec64 c3).bind (fun s3 =>
            if c4 = 61 then
              if rest = [] ∧ s3 % 4 = 0 then
                some [s1 * 4 + s2 / 16, s2 % 16 * 16 + s3 / 4]
              else none
            else
              (dec64 c4).bind (fun s4 =>
                (b64decode rest).map (fun tail =>
                  (s1 * 4 + s2 / 16) :: (s2 % 16 * 16 + s3 / 4) ::
                    (s3 % 4 * 64 + s4) :: tail)))))
  | _ => none

/-! ## UTF-8 (model of Rust's `String::from_utf8` and the byte view of `String`) -/

/-- A Unicode scalar value: any code point outside the surrogate range. -/
def ValidCp (n : Nat) : Prop := (n < 0xD800 ∨ 0xE000 ≤ n) ∧ n < 0x110000

instance (n : Nat) : Decidable (ValidCp n) := by
  unfold ValidCp
  infer_instance

/-- UTF-8 encoding of one code point. -/
def utf8EncodeChar (n : Nat) : List Nat :=
  if n < 0x80 then [n]
  else if n < 0x800 then [0xC0 + n / 64, 0x80 + n % 64]
  else if n < 0x10000 then [0xE0 + n / 4096, 0x80 + n / 64 % 64, 0x80 + n % 64]
  else [0xF0 + n / 0x40000, 0x80 + n / 4096 % 64, 0x80 + n / 64 % 64, 0x80 + n % 64]

/-- UTF-8 encoding of a sequence of code points (the byte view of a Rust
`String`). -/
def utf8Encode (cps : List Nat) : List Nat :=
  (cps.map utf8EncodeChar).flatten

/-- Whether a byte is a UTF-8 continuation byte (`10xxxxxx`). -/
def isCont (b : Nat) : Bool := decide (0x80 ≤ b ∧ b < 0xC0)

/-- Strict decoding of one UTF-8 scalar: given the first byte and the
following bytes, return the code point and the bytes remaining after it;
`none` on any ill-formed head sequence (stray continuation byte, truncated
sequence, overlong encoding, surrogate, or value above `0x10FFFF`). -/
def utf8DecodeChar1 (b : Nat) (rest : List Nat) : Option (Nat × List Nat) :=
  if b < 0x80 then some (b, rest)
  else if b < 0xC2 then none
  else if b < 0xE0 then
    match rest with
    | b1 :: rest1 =>
      if isCont b1 then some ((b - 0xC0) * 64 + (b1 - 0x80), rest1) else none
    | [] => none
  else if b < 0xF0 then
    match rest with
    | b1 :: b2 :: rest2 =>
      if isCont b1 ∧ isCont b2 then
        if 0x800 ≤ (b - 0xE0) * 4096 + (b1 - 0x80) * 64 + (b2 - 0x80) ∧
            ((b - 0xE0) * 4096 + (b1 - 0x80) * 64 + (b2 - 0x80) < 0xD800 ∨
              0xE000 ≤ (b - 0xE0) * 4096 + (b1 - 0x80) * 64 + (b2 - 0x80)) then
          some ((b - 0xE0) * 4096 + (b1 - 0x80) * 64 + (b2 - 0x80), rest2)
        else none
      else none
    | _ => none
  else if b < 0xF5 then
    match rest with
    | b1 :: b2 :: b3 :: rest3 =>
      if isCont b1 ∧ isCont b2 ∧ isCont b3 then
        if 0x10000 ≤ (b - 0xF0) * 0x40000 + (b1 - 0x80) * 4096 + (b2 - 0x80) * 64 + (b3 - 0x80) ∧
            (b - 0xF0) * 0x40000 + (b1 - 0x80) * 4096 + (b2 - 0x80) * 64 + (b3 - 0x80)
              < 0x110000 then
          some ((b - 0xF0) * 0x40000 + (b1 - 0x80) * 4096 + (b2 - 0x80) * 64 + (b3 - 0x80),
            rest3)
        else none
      else none
    | _ => none
  else none

/-- Worker for `utf8Decode`: one scalar is consumed per unit of fuel, so any
`fuel` exceeding the number of scalars (hence any `fuel > bs.length`)
computes the full decoding; structural recursion on the fuel keeps the
definition kernel-reducible. -/
def utf8DecodeCore : Nat → List Nat → Option (List Nat)
  | 0, _ => none
  | _ + 1, [] => some []
  | fuel + 1, b :: rest =>
    match utf8DecodeChar1 b rest with
    | none => none
    | some (n, rest1) => (utf8DecodeCore fuel rest1).map (fun l => n :: l)

/-- Strict UTF-8 decoding of a byte list into code points; `none` on any
ill-formed sequence. Models the validation of Rust's `String::from_utf8`. -/
def utf8Decode (bs : List Nat) : Option (List Nat) :=
  utf8DecodeCore (bs.length + 1) bs

/-- Equality of `Except` results is decidable when it is for both components. -/
instance (ε α : Type) [DecidableEq ε] [DecidableEq α] : DecidableEq (Except ε α) := by
  intro a b
  cases a with
  | error e =>
    cases b with
    | error f => exact decidable_of_iff (e = f) (by simp)
    | ok w => exact .isFalse (by simp)
  | ok v =>
    cases b with
    | error f => exact .isFalse (by simp)
    | ok w => exact decidable_of_iff (v = w) (by simp)

/-! ## State decoding (src/rpc/tool.rs lines 102-115) -/

/-- `StateItem`: one raw storage entry at the wire boundary; `key` and
`value` are the ASCII codes of base64-encoded text. -/
structure StateItem where
  key : List Nat
  value : List Nat
deriving DecidableEq, Repr

/-- The map the application boundary sees: decoded UTF-8 keys (code-point
lists) to raw byte values. Models `HashMap<String, Vec<u8>>` as an
association list whose entry order is immaterial (reads go through
`hmFind`). -/
abbrev StateMap : Type := List (List Nat × List Nat)

/-- `HashMap::insert`: replace the value at an existing key, else add the
entry. -/
def hmInsert (m : StateMap) (k v : List Nat) : StateMap :=
  match m with
  | [] => [(k, v)]
  | (k0, v0) :: rest => if k0 = k then (k, v) :: rest else (k0, v0) :: hmInsert rest k v

/-- `HashMap::get`: the value stored at a key. -/
def hmFind (m : StateMap) (k : List Nat) : Option (List Nat) :=
  match m with
  | [] => none
  | (k0, v0) :: rest => if k0 = k then some v0 else hmFind rest k

/-- How many entries of the map carry the given key. -/
def hmCount (m : StateMap) (k : List Nat) : Nat :=
  m.countP (fun p => p.1 == k)

/-- The per-item closure `decode` of `into_state_map` (src/rpc/tool.rs lines
107-112): base64-decode the key, require it to be UTF-8
(`String::from_utf8`), base64-decode the value. -/
def itemDecode (s : StateItem) : Except String (List Nat × List Nat) :=
  match b64decode s.key with
  | none => .error "invalid base64"
  | some kb =>
    match utf8Decode kb with
    | none => .error "invalid utf-8"
    | some k =>
      match b64decode s.value with
      | none => .error "invalid base64"
      | some v => .ok (k, v)

/-- One step of collecting `Result` items into a `Result<HashMap<..>>`. -/
def stateStep (acc : Except String StateMap) (s : StateItem) : Except String StateMap :=
  match acc with
  | .error e => .error e
  | .ok m =>
    match itemDecode s with
    | .error e => .error e
    | .ok (k, v) => .ok (hmInsert m k v)

/-- `into_state_map` (src/rpc/tool.rs lines 104-115):
`state_items.iter().map(decode).collect::<Result<HashMap<_, _>>>()` — the
first failing item fails the whole operation, otherwise the decoded pairs
are inserted left to right. -/
def into_state_map (state_items : List StateItem) : Except String StateMap :=
  state_items.foldl stateStep (.ok [])

/-- The wire encoding of one (key, value) pair as the spec's round-trip
property describes it: the key's UTF-8 bytes and the value bytes, each
base64-encoded. -/
def encodeStateItem (k v : List Nat) : StateItem :=
  ⟨b64encode (utf8Encode k), b64encode v⟩

/-- The successfully decoded (key, value) pairs of a sequence of state
items, in order. -/
def decodedPairs (state_items : List StateItem) : List (List Nat × List Nat) :=
  state_items.filterMap (fun s => (itemDecode s).toOption)

/-- The decoded value of the latest item whose key decodes to `k` — what the
resulting map must associate to `k` when every item decodes. -/
def lastDecodedValue (state_items : List StateItem) (k : List Nat) : Option (List Nat) :=
  ((decodedPairs state_items).reverse.find? (fun p => p.1 == k)).map (fun p => p.2)

/-! ## Random dev-account generation (src/rpc/tool.rs lines 117-126) -/

/-- Modelled from the spec: the backend's account-identifier syntax (NEAR
`AccountId::validate`, external to this repository): 2 to 64 characters,
each a lowercase ASCII letter, digit, or one of `-`, `_`, `.`, with no
leading, trailing, or consecutive separator characters. `lastSep` starts
`true` so a leading separator is rejected; at the end a trailing separator
is rejected. -/
def validAccountChars : List Char → Bool → Bool
  | [], lastSep => !lastSep
  | c :: rest, lastSep =>
    if (97 ≤ c.toNat ∧ c.toNat ≤ 122) ∨ (48 ≤ c.toNat ∧ c.toNat ≤ 57) then
      validAccountChars rest false
    else if c.toNat = 45 ∨ c.toNat = 95 ∨ c.toNat = 46 then
      !lastSep && validAccountChars rest true
    else false

/-- Modelled from the spec: validity of a whole account identifier. -/
def validAccountId (s : String) : Bool :=
  2 ≤ s.data.length && s.data.length ≤ 64 && validAccountChars s.data true

/-- A UTC timestamp at second granularity. -/
structure UtcTime where
  year : Nat
  month : Nat
  day : Nat
  hour : Nat
  minute : Nat
  second : Nat
deriving DecidableEq, Repr

/-- A field zero-padded on the left to the given width, as `chrono`'s
formatter renders each component of `%Y%m%d%H%M%S`. -/
def zeroPad (w n : Nat) : List Char :=
  List.replicate (w - (natDigits n).length) '0' ++ natDigits n

/-- `Utc::now().format("%Y%m%d%H%M%S")`: the year to (at least) four digits,
every other component to (at least) two. -/
def fmtTimestamp (t : UtcTime) : String :=
  ⟨zeroPad 4 t.year ++ zeroPad 2 t.month ++ zeroPad 2 t.day ++
    zeroPad 2 t.hour ++ zeroPad 2 t.minute ++ zeroPad 2 t.second⟩

/-- `random_account_id` (src/rpc/tool.rs lines 117-126). The sampled time and
random number are passed explicitly: the source draws `random_num` from
`gen_range(10000000000000usize..99999999999999)` and `t` from `Utc::now()`,
then formats `dev-{timestamp}-{random_num}` and converts it to an
`AccountId`; the `expect` on a failed conversion (a panic) is modelled as
`none`. -/
def random_account_id (t : UtcTime) (random_num : Nat) : Option String :=
  let account_id := "dev-" ++ fmtTimestamp t ++ "-" ++ natToString random_num
  if validAccountId account_id then some account_id else none

/-! ## Out-of-band account creation (src/rpc/tool.rs lines 128-147) -/

/-- An HTTP request as assembled by `url_create_account`. -/
structure HttpRequest where
  method : String
  url : String
  contentType : Option String
  body : String
deriving DecidableEq, Repr

/-- An HTTP response; only the status code is modelled, since the source
never reads the body. -/
structure HttpResponse where
  status : Nat
deriving DecidableEq, Repr

/-- The transport: what `reqwest`'s `send()` returns for a request. An
`error` is a transport-level failure (connection, DNS, ...); any response
the server produced — whatever its status code — arrives as `ok`. -/
abbrev HttpSend : Type := HttpRequest → Except String HttpResponse

/-- `Url::join("account")` on the helper base URL: a relative segment
replaces everything after the last `/` of the base path. The bases used here
end in `/`, so the segment is appended. -/
def urlJoin (base seg : String) : String :=
  if base.data.getLast? = some '/' then base ++ seg else base ++ seg

/-- `serde_json::to_vec(&json!({"newAccountId": .., "newAccountPublicKey": ..}))`
(src/rpc/tool.rs lines 139-142); `serde_json` orders the two keys
alphabetically, which is also source order. -/
def createAccountBody (account_id pk : String) : String :=
  "\x7b\"newAccountId\":\"" ++ account_id ++ "\",\"newAccountPublicKey\":\"" ++ pk ++ "\"\x7d"

/-- The request `url_create_account` builds: a POST to `helper_url/account`
with a JSON content type and the identifier/public-key body. -/
def createAccountRequest (helper_url account_id pk : String) : HttpRequest :=
  { method := "POST"
    url := urlJoin helper_url "account"
    contentType := some "application/json"
    body := createAccountBody account_id pk }

/-- `url_create_account` (src/rpc/tool.rs lines 128-147): send the request
through the transport; a transport error propagates (`?`), and any received
response is discarded (`let _resp = ...`) before returning `Ok(())`. -/
def url_create_account (send : HttpSend) (helper_url account_id pk : String) :
    Except String Unit :=
  match send (createAccountRequest helper_url account_id pk) with
  | .error e => .error e
  | .ok _ => .ok ()

/-- Whether the helper service reported success for the request: it produced
a response with a 2xx status. -/
def helperReportsSuccess (send : HttpSend) (req : HttpRequest) : Prop :=
  ∃ r, send req = .ok r ∧ 200 ≤ r.status ∧ r.status < 300

/-- A transport that delivers the request and receives a 200 response. -/
def svcOk : HttpSend := fun _ => .ok ⟨200⟩

/-- A transport whose connection fails. -/
def svcRefused : HttpSend := fun _ => .error "connection refused"

/-- A transport that delivers the request to a helper which reports an
internal error (HTTP 500). -/
def svc500 : HttpSend := fun _ => .ok ⟨500⟩

/-- The ways a single state item can fail to decode: its key or value is not
base64, or its decoded key is not UTF-8. -/
def itemFails (s : StateItem) : Prop :=
  b64decode s.key = none ∨
  (∃ kb, b64decode s.key = some kb ∧ utf8Decode kb = none) ∨
  b64decode s.value = none

instance (s : StateItem) : Decidable (itemFails s) := by
  unfold itemFails
  cases b64decode s.key with
  | none => exact .isTrue (Or.inl rfl)
  | some kb =>
    cases h : utf8Decode kb with
    | none =>
      exact .isTrue (Or.inr (Or.inl ⟨kb, rfl, h⟩))
    | some k =>
      cases b64decode s.value with
      | none => exact .isTrue (Or.inr (Or.inr rfl))
      | some v => exact .isFalse (by simp [h])

/-! ## Lemmas: decimal digits -/

theorem digitChar10_bounds (d : Nat) (hd : d < 10) :
    48 ≤ (digitChar10 d).toNat ∧ (digitChar10 d).toNat = 48 + d := by
  revert hd
  revert d
  decide

theorem natDigitsCore_ne_nil (fuel n : Nat) (h : n < fuel) : natDigitsCore fuel n ≠ [] := by
  cases fuel with
  | zero => omega
  | succ fuel =>
    unfold natDigitsCore
    split
    · simp
    · simp

theorem natDigitsCore_digits (fuel : Nat) :
    ∀ n, n < fuel → ∀ c ∈ natDigitsCore fuel n, 48 ≤ c.toNat ∧ c.toNat ≤ 57 := by
  induction fuel with
  | zero => omega
  | succ fuel ih =>
    intro n hn c hc
    unfold natDigitsCore at hc
    split at hc
    · rcases List.mem_singleton.mp hc with rfl
      have := digitChar10_bounds n (by omega)
      omega
    · rcases List.mem_append.mp hc with h1 | h1
      · have hdiv : n / 10 < fuel := by
          have : n / 10 < n := Nat.div_lt_self (by omega) (by omega)
          omega
        exact ih (n / 10) hdiv c h1
      · rcases List.mem_singleton.mp h1 with rfl
        have := digitChar10_bounds (n % 10) (by omega)
        omega

theorem natDigitsCore_length_le (fuel : Nat) :
    ∀ n k, n < fuel → n < 10 ^ k → 1 ≤ k → (natDigitsCore fuel n).length ≤ k := by
  induction fuel with
  | zero => omega
  | succ fuel ih =>
    intro n k hn hk h1
    unfold natDigitsCore
    split
    · simpa using h1
    · rename_i hge
      have hkk : 2 ≤ k := by
        by_contra hcon
        have : k = 1 := by omega
        subst this
        simp at hk
        omega
      have hdiv : n / 10 < fuel := by
        have : n / 10 < n := Nat.div_lt_self (by omega) (by omega)
        omega
      have hpow : n / 10 < 10 ^ (k - 1) := by
        have h10 : 10 ^ k = 10 ^ (k - 1) * 10 := by
          conv_lhs => rw [show k = k - 1 + 1 by omega]
          rw [pow_succ]
        rw [Nat.div_lt_iff_lt_mul (by omega)]
        omega
      have := ih (n / 10) (k - 1) hdiv hpow (by omega)
      simp only [List.length_append, List.length_singleton]
      omega

theorem natDigitsCore_length_ge (fuel : Nat) :
    ∀ n k, n < fuel → 10 ^ k ≤ n → k + 1 ≤ (natDigitsCore fuel n).length := by
  induction fuel with
  | zero => omega
  | succ fuel ih =>
    intro n k hn hk
    unfold natDigitsCore
    split
    · rename_i hlt
      have : k = 0 := by
        by_contra hcon
        have : 10 ≤ 10 ^ k := by
          calc 10 = 10 ^ 1 := by norm_num
          _ ≤ 10 ^ k := Nat.pow_le_pow_right (by omega) (by omega)
        omega
      simp [this]
    · rename_i hge
      cases k with
      | zero =>
        have := natDigitsCore_ne_nil fuel (n / 10)
          (by have : n / 10 < n := Nat.div_lt_self (by omega) (by omega); omega)
        have hlen : 1 ≤ (natDigitsCore fuel (n / 10)).length :=
          List.length_pos.mpr this
        simp only [List.length_append, List.length_singleton]
        omega
      | succ k =>
        have hdiv : n / 10 < fuel := by
          have : n / 10 < n := Nat.div_lt_self (by omega) (by omega)
          omega
        have hpow : 10 ^ k ≤ n / 10 := by
          rw [Nat.le_div_iff_mul_le (by omega)]
          calc 10 ^ k * 10 = 10 ^ (k + 1) := (pow_succ 10 k).symm
          _ ≤ n := hk
        have := ih (n / 10) k hdiv hpow
        simp only [List.length_append, List.length_singleton]
        omega

theorem digitsVal_append (l : List Char) (c : Char) :
    digitsVal (l ++ [c]) = digitsVal l * 10 + (c.toNat - 48) := by
  simp [digitsVal, List.foldl_append]

theorem natDigitsCore_val (fuel : Nat) :
    ∀ n, n < fuel → digitsVal (natDigitsCore fuel n) = n := by
  induction fuel with
  | zero => omega
  | succ fuel ih =>
    intro n hn
    unfold natDigitsCore
    split
    · rename_i hlt
      have := digitChar10_bounds n (by omega)
      simp [digitsVal]
      omega
    · rename_i hge
      have hdiv : n / 10 < fuel := by
        have : n / 10 < n := Nat.div_lt_self (by omega) (by omega)
        omega
      rw [digitsVal_append, ih (n / 10) hdiv]
      have := digitChar10_bounds (n % 10) (by omega)
      omega

theorem natDigits_digits (n : Nat) : ∀ c ∈ natDigits n, 48 ≤ c.toNat ∧ c.toNat ≤ 57 :=
  natDigitsCore_digits (n + 1) n (by omega)

theorem natDigits_ne_nil (n : Nat) : natDigits n ≠ [] :=
  natDigitsCore_ne_nil (n + 1) n (by omega)

theorem natDigits_length_le (n k : Nat) (hk : n < 10 ^ k) (h1 : 1 ≤ k) :
    (natDigits n).length ≤ k :=
  natDigitsCore_length_le (n + 1) n k (by omega) hk h1

theorem natDigits_length_ge (n k : Nat) (hk : 10 ^ k ≤ n) :
    k + 1 ≤ (natDigits n).length :=
  natDigitsCore_length_ge (n + 1) n k (by omega) hk

theorem digitsVal_natDigits (n : Nat) : digitsVal (natDigits n) = n :=
  natDigitsCore_val (n + 1) n (by omega)

/-! ## Lemmas: context registry -/

theorem applyInstalls_eq_reverse_append (ops : List (Nat × RuntimeFlavor)) :
    ∀ reg : Registry, applyInstalls ops reg = ops.reverse ++ reg := by
  induction ops with
  | nil => intro reg; simp [applyInstalls]
  | cons o ops ih =>
    intro reg
    have step : applyInstalls (o :: ops) reg = applyInstalls ops (ctxInstall reg o.1 o.2) := by
      simp [applyInstalls]
    rw [step, ih]
    simp [ctxInstall]

theorem find?_filter_append (t : Nat) (l : List (Nat × RuntimeFlavor)) :
    ∀ reg : List (Nat × RuntimeFlavor),
      List.find? (fun p => p.1 == t) (l ++ reg) =
        List.find? (fun p => p.1 == t) (l.filter (fun p => p.1 == t) ++ reg) := by
  induction l with
  | nil => intro reg; rfl
  | cons c l ih =>
    intro reg
    rw [List.cons_append]
    by_cases hc : (c.1 == t) = true
    · have h1 : List.find? (fun p => p.1 == t) (c :: (l ++ reg)) = some c :=
        List.find?_cons_of_pos _ hc
      have h2 : List.filter (fun p => p.1 == t) (c :: l) =
          c :: List.filter (fun p => p.1 == t) l :=
        List.filter_cons_of_pos hc
      have h3 : List.find? (fun p => p.1 == t)
          (c :: (List.filter (fun p => p.1 == t) l ++ reg)) = some c :=
        List.find?_cons_of_pos _ hc
      rw [h1, h2, List.cons_append, h3]
    · have h1 : List.find? (fun p => p.1 == t) (c :: (l ++ reg)) =
          List.find? (fun p => p.1 == t) (l ++ reg) :=
        List.find?_cons_of_neg _ hc
      have h2 : List.filter (fun p => p.1 == t) (c :: l) =
          List.filter (fun p => p.1 == t) l :=
        List.filter_cons_of_neg hc
      rw [h1, h2, ih reg]

theorem ctxCurrent_filter (ops : List (Nat × RuntimeFlavor)) (t : Nat) :
    ctxCurrent (applyInstalls ops []) t =
      (List.find? (fun p => p.1 == t) (ops.filter (fun p => p.1 == t)).reverse).map
        (fun p => p.2) := by
  rw [ctxCurrent, applyInstalls_eq_reverse_append]
  rw [show ops.reverse ++ ([] : Registry) = ops.reverse ++ [] from rfl]
  rw [find?_filter_append t ops.reverse []]
  simp [List.filter_reverse]

/-! ## Claim C1: transaction-submission retry policy -/

/-- C1: `send_tx` retries the broadcast exactly as long as the backend
reports the timeout-class server error and returns the first non-timeout
response: against a backend answering the timeout-class error `N` times and
then a non-timeout response `r`, it performs `N + 1` attempts and its result
is `r` (errors carrying the `map_err` formatting); in particular a
non-timeout error is returned without further retry. -/
theorem send_tx_retries_until_non_timeout (N : Nat) (r : TxResponse)
    (rest : List TxResponse) (h : isTimeout r = false) :
    send_tx (List.replicate N (.error .timeoutError) ++ r :: rest) =
      some (r.mapError fmtTxError, N + 1) := by
  induction N with
  | zero =>
    simp only [List.replicate, List.nil_append]
    unfold send_tx
    rw [h]
    simp
  | succ N ih =>
    rw [List.replicate_succ, List.cons_append]
    unfold send_tx
    rw [show isTimeout (Except.error RpcErr.timeoutError) = true from rfl]
    simp only [if_true, ih]
    rfl

/-- Witness for C1: two timeouts then a success yield the success after
exactly three attempts. -/
theorem send_tx_retries_witness :
    isTimeout (Except.ok (7 : Outcome)) = false ∧
    send_tx (List.replicate 2 (.error .timeoutError) ++ (Except.ok (7 : Outcome)) :: []) =
      some (.ok 7, 3) :=
  ⟨by decide, send_tx_retries_until_non_timeout 2 (.ok 7) [] (by decide)⟩

/-! ## Claim C2: isolation of concurrent scopes -/

/-- C2: for any interleaving `ops` of registry installations in which scope
`t1` installed exactly the descriptor `d1` and scope `t2` exactly `d2`,
each scope's `current()` — and hence every RPC-layer address resolution
issued from its task — observes only its own descriptor. -/
theorem scope_isolation (ops : List (Nat × RuntimeFlavor)) (t1 t2 : Nat)
    (d1 d2 : RuntimeFlavor) (_hne : t1 ≠ t2)
    (h1 : ops.filter (fun o => o.1 == t1) = [(t1, d1)])
    (h2 : ops.filter (fun o => o.1 == t2) = [(t2, d2)]) :
    ctxCurrent (applyInstalls ops []) t1 = some d1 ∧
    ctxCurrent (applyInstalls ops []) t2 = some d2 ∧
    rt_current_addr (applyInstalls ops []) t1 = d1.rpc_addr ∧
    rt_current_addr (applyInstalls ops []) t2 = d2.rpc_addr := by
  have e1 : ctxCurrent (applyInstalls ops []) t1 = some d1 := by
    rw [ctxCurrent_filter, h1]
    simp [List.find?]
  have e2 : ctxCurrent (applyInstalls ops []) t2 = some d2 := by
    rw [ctxCurrent_filter, h2]
    simp [List.find?]
  refine ⟨e1, e2, ?_, ?_⟩
  · rw [rt_current_addr, e1]
    rfl
  · rw [rt_current_addr, e2]
    rfl

/-- Witness for C2: a sandbox scope and a testnet scope running together
each resolve their own address. -/
theorem scope_isolation_witness :
    ctxCurrent (applyInstalls [(1, .Sandbox 3030), (2, .Testnet)] []) 1 =
      some (.Sandbox 3030) ∧
    ctxCurrent (applyInstalls [(1, .Sandbox 3030), (2, .Testnet)] []) 2 = some .Testnet ∧
    rt_current_addr (applyInstalls [(1, .Sandbox 3030), (2, .Testnet)] []) 1 =
      (RuntimeFlavor.Sandbox 3030).rpc_addr ∧
    rt_current_addr (applyInstalls [(1, .Sandbox 3030), (2, .Testnet)] []) 2 =
      RuntimeFlavor.Testnet.rpc_addr :=
  scope_isolation [(1, .Sandbox 3030), (2, .Testnet)] 1 2 (.Sandbox 3030) .Testnet
    (by decide) (by decide) (by decide)

/-! ## Claim C3: RPC address per variant -/

/-- C3: the RPC address of `Sandbox(p)` is exactly `http://localhost:` followed
by the decimal numeral of `p` (all digit characters, denoting `p`), and the
address of `Testnet` is the fixed well-known URL, independent of any input;
both computations are functions of the variant alone. -/
theorem rpc_addr_per_variant (p : Nat) :
    RuntimeFlavor.rpc_addr (.Sandbox p) =
      some ("http://localhost:" ++ natToString p) ∧
    (∀ c ∈ (natToString p).data, 48 ≤ c.toNat ∧ c.toNat ≤ 57) ∧
    digitsVal (natToString p).data = p ∧
    RuntimeFlavor.rpc_addr .Testnet = some TestnetRuntime.RPC_URL :=
  ⟨rfl, fun c hc => natDigits_digits p c hc, digitsVal_natDigits p, rfl⟩

/-! ## Claim C7: address resolved inside a local-backend scope -/

/-- C7 (amended): resolving the current descriptor inside a scope bound to
`Sandbox(p)` yields the RPC address `http://localhost:{p}` — not
`http://localhother:{p}` as the spec's scenario text misprints. -/
theorem rt_current_addr_in_sandbox_scope (reg : Registry) (t p : Nat)
    (h : ctxCurrent reg t = some (.Sandbox p)) :
    rt_current_addr reg t = some ("http://localhost:" ++ natToString p) := by
  rw [rt_current_addr, h]
  rfl

/-- Counterexample for C7 as stated: in a scope bound to `Sandbox(3030)` the
resolved address is `http://localhost:3030`, which is not the claimed
`http://localhother:3030`. -/
theorem rt_current_addr_not_localhother :
    rt_current_addr [(0, .Sandbox 3030)] 0 = some "http://localhost:3030" ∧
    rt_current_addr [(0, .Sandbox 3030)] 0 ≠ some "http://localhother:3030" := by
  exact ⟨by decide, by decide⟩

/-- Witness for C7's amended statement at port 3030. -/
theorem rt_current_addr_in_sandbox_scope_witness :
    ctxCurrent [(0, .Sandbox 3030)] 0 = some (.Sandbox 3030) ∧
    rt_current_addr [(0, .Sandbox 3030)] 0 =
      some ("http://localhost:" ++ natToString 3030) :=
  ⟨by decide, rt_current_addr_in_sandbox_scope [(0, .Sandbox 3030)] 0 3030 (by decide)⟩

/-! ## Claim C4: credential path layout -/

theorem pathPush_no_slash (h comp : String) (hh : h.data.getLast? ≠ some '/') :
    pathPush h comp = h ++ "/" ++ comp := by
  rw [pathPush, if_neg hh]

theorem getLast?_append_string (a b : String) (hb : b.data ≠ []) :
    (a ++ b).data.getLast? = b.data.getLast? := by
  rw [String.data_append, List.getLast?_append]
  cases hc : b.data.getLast? with
  | none => exact absurd (List.getLast?_eq_none_iff.mp hc) hb
  | some c => rfl

/-- C4 (amended): for both supported backend kinds, `credentials_filepath`
returns the path `<home>/.near-credentials/<backend-kind>/<account-id>.json`
— a fixed `.near-credentials` directory with a kind-named subdirectory
(distinct per backend kind) and final component `<account-id>.json` — it
records the containing directory as created, and it neither reads nor
writes any file. (The spec's `.<backend-kind>-credentials` template does not
match the source's fixed `.near-credentials` prefix.) -/
theorem credentials_filepath_layout (p : Nat) (h aid : String) (fs : FS)
    (hh : h.data.getLast? ≠ some '/') :
    credentials_filepath (.Sandbox p) (some h) aid fs =
      .ok (h ++ "/.near-credentials/sandbox/" ++ aid ++ ".json",
        createDirAll fs (h ++ "/.near-credentials/sandbox/")) ∧
    credentials_filepath .Testnet (some h) aid fs =
      .ok (h ++ "/.near-credentials/testnet/" ++ aid ++ ".json",
        createDirAll fs (h ++ "/.near-credentials/testnet/")) ∧
    (h ++ "/.near-credentials/sandbox/" : String) ≠ h ++ "/.near-credentials/testnet/" ∧
    (createDirAll fs (h ++ "/.near-credentials/sandbox/")).files = fs.files ∧
    (createDirAll fs (h ++ "/.near-credentials/testnet/")).files = fs.files ∧
    (h ++ "/.near-credentials/sandbox/")
      ∈ (createDirAll fs (h ++ "/.near-credentials/sandbox/")).dirs ∧
    (h ++ "/.near-credentials/testnet/")
      ∈ (createDirAll fs (h ++ "/.near-credentials/testnet/")).dirs := by
  have hsd : h ++ "/" ++ SANDBOX_CREDENTIALS_DIR = h ++ "/.near-credentials/sandbox/" := by
    rw [String.append_assoc]
    exact congrArg (fun s => h ++ s) (by decide)
  have htd : h ++ "/" ++ TESTNET_CREDENTIALS_DIR = h ++ "/.near-credentials/testnet/" := by
    rw [String.append_assoc]
    exact congrArg (fun s => h ++ s) (by decide)
  have hslash : ∀ tail : String, (h ++ ("/.near-credentials/" ++ tail ++ "/")).data.getLast?
      = some '/' := by
    intro tail
    rw [getLast?_append_string _ _ (by simp [String.data_append])]
    rw [getLast?_append_string _ _ (by simp)]
    rfl
  have hsandbox : credentials_filepath (.Sandbox p) (some h) aid fs =
      .ok (h ++ "/.near-credentials/sandbox/" ++ aid ++ ".json",
        createDirAll fs (h ++ "/.near-credentials/sandbox/")) := by
    show Except.ok (pathPush (pathPush h SANDBOX_CREDENTIALS_DIR) (aid ++ ".json"),
      createDirAll fs (pathPush h SANDBOX_CREDENTIALS_DIR)) = _
    rw [pathPush_no_slash h _ hh, hsd]
    have : h ++ "/.near-credentials/sandbox/" = h ++ ("/.near-credentials/" ++ "sandbox" ++ "/") := rfl
    rw [pathPush, this, if_pos (hslash "sandbox"), ← this, ← String.append_assoc]
  have htestnet : credentials_filepath .Testnet (some h) aid fs =
      .ok (h ++ "/.near-credentials/testnet/" ++ aid ++ ".json",
        createDirAll fs (h ++ "/.near-credentials/testnet/")) := by
    show Except.ok (pathPush (pathPush h TESTNET_CREDENTIALS_DIR) (aid ++ ".json"),
      createDirAll fs (pathPush h TESTNET_CREDENTIALS_DIR)) = _
    rw [pathPush_no_slash h _ hh, htd]
    have : h ++ "/.near-credentials/testnet/" = h ++ ("/.near-credentials/" ++ "testnet" ++ "/") := rfl
    rw [pathPush, this, if_pos (hslash "testnet"), ← this, ← String.append_assoc]
  have hdistinct : (h ++ "/.near-credentials/sandbox/" : String)
      ≠ h ++ "/.near-credentials/testnet/" := by
    intro heq
    have hdata := congrArg String.data heq
    rw [String.data_append, String.data_append] at hdata
    have := List.append_cancel_left hdata
    simp at this
  exact ⟨hsandbox, htestnet, hdistinct, rfl, rfl, List.mem_cons_self _ _, List.mem_cons_self _ _⟩

/-- Counterexample for C4 as stated: for the sandbox backend, home
`/home/user` and account `alice`, the source computes a path under
`.near-credentials`, not under the `.{backend-kind}-credentials` directory
the spec's words describe. -/
theorem credentials_filepath_spec_mismatch :
    credentials_filepath (.Sandbox 3030) (some "/home/user") "alice" ⟨[], []⟩ =
      .ok ("/home/user/.near-credentials/sandbox/alice.json",
        ⟨["/home/user/.near-credentials/sandbox/"], []⟩) ∧
    specCredentialsPath "sandbox" "/home/user" "alice" =
      "/home/user/.sandbox-credentials/sandbox/alice.json" ∧
    ("/home/user/.near-credentials/sandbox/alice.json" : String) ≠
      "/home/user/.sandbox-credentials/sandbox/alice.json" := by
  exact ⟨by decide, by decide, by decide⟩

/-- Witness for C4's amended statement at a concrete home and account. -/
theorem credentials_filepath_layout_witness :
    credentials_filepath (.Sandbox 3030) (some "/home/user") "alice" ⟨[], []⟩ =
      .ok ("/home/user" ++ "/.near-credentials/sandbox/" ++ "alice" ++ ".json",
        createDirAll ⟨[], []⟩ ("/home/user" ++ "/.near-credentials/sandbox/")) ∧
    credentials_filepath .Testnet (some "/home/user") "alice" ⟨[], []⟩ =
      .ok ("/home/user" ++ "/.near-credentials/testnet/" ++ "alice" ++ ".json",
        createDirAll ⟨[], []⟩ ("/home/user" ++ "/.near-credentials/testnet/")) := by
  have := credentials_filepath_layout 3030 "/home/user" "alice" ⟨[], []⟩ (by decide)
  exact ⟨this.1, this.2.1⟩

/-! ## Claim C8: out-of-band account creation -/

/-- C8 (amended): `url_create_account` issues a POST with a JSON content type
carrying the new account identifier and public key; it succeeds exactly when
the transport delivers the request and any response at all comes back — a
transport error is propagated, but the helper's reported status is not
inspected. -/
theorem url_create_account_transport (send : HttpSend) (helper aid pk : String) :
    (createAccountRequest helper aid pk).method = "POST" ∧
    (createAccountRequest helper aid pk).contentType = some "application/json" ∧
    (createAccountRequest helper aid pk).body = createAccountBody aid pk ∧
    (url_create_account send helper aid pk = .ok () ↔
      ∃ r, send (createAccountRequest helper aid pk) = .ok r) ∧
    (∀ e, send (createAccountRequest helper aid pk) = .error e →
      url_create_account send helper aid pk = .error e) := by
  have heq : url_create_account send helper aid pk =
      match send (createAccountRequest helper aid pk) with
      | .error e => .error e
      | .ok _ => .ok () := rfl
  refine ⟨rfl, rfl, rfl, ?_, ?_⟩
  · rw [heq]
    cases hs : send (createAccountRequest helper aid pk) with
    | error e => simp
    | ok r => simp
  · intro e he
    rw [heq, he]

/-- Counterexample for C8 as stated: when the helper answers HTTP 500 (it
reports failure), `url_create_account` still returns success, so success of
the operation is not equivalent to the helper reporting success. -/
theorem url_create_account_ignores_status :
    ¬ (url_create_account svc500 "https://helper.testnet.near.org/" "alice.testnet" "pk"
          = .ok () ↔
        helperReportsSuccess svc500
          (createAccountRequest "https://helper.testnet.near.org/" "alice.testnet" "pk")) := by
  intro hiff
  obtain ⟨r, hr, hstat⟩ := hiff.mp rfl
  have h500 : HttpResponse.mk 500 = r := by injection hr
  rw [← h500] at hstat
  have hlt : (500 : Nat) < 300 := hstat.2
  omega

/-- Witness for C8's amended statement: a delivered request succeeds, a
refused connection propagates the transport error. -/
theorem url_create_account_transport_witness :
    url_create_account svcOk "https://helper.testnet.near.org/" "alice.testnet" "pk"
      = .ok () ∧
    url_create_account svcRefused "https://helper.testnet.near.org/" "alice.testnet" "pk"
      = .error "connection refused" := by
  constructor
  · exact (url_create_account_transport svcOk "https://helper.testnet.near.org/"
      "alice.testnet" "pk").2.2.2.1.mpr ⟨⟨200⟩, rfl⟩
  · exact (url_create_account_transport svcRefused "https://helper.testnet.near.org/"
      "alice.testnet" "pk").2.2.2.2 "connection refused" rfl

/-! ## Claim C9: random dev-account generation -/

theorem validAccountChars_alnum_cons (c : Char) (rest : List Char) (flag : Bool)
    (hc : (97 ≤ c.toNat ∧ c.toNat ≤ 122) ∨ (48 ≤ c.toNat ∧ c.toNat ≤ 57)) :
    validAccountChars (c :: rest) flag = validAccountChars rest false := by
  rw [validAccountChars, if_pos hc]

theorem validAccountChars_sep_cons (c : Char) (rest : List Char) (flag : Bool)
    (hc1 : ¬ ((97 ≤ c.toNat ∧ c.toNat ≤ 122) ∨ (48 ≤ c.toNat ∧ c.toNat ≤ 57)))
    (hc2 : c.toNat = 45 ∨ c.toNat = 95 ∨ c.toNat = 46) :
    validAccountChars (c :: rest) flag = (!flag && validAccountChars rest true) := by
  rw [validAccountChars, if_neg hc1, if_pos hc2]

theorem validAccountChars_digits_append (l1 : List Char)
    (hd : ∀ c ∈ l1, 48 ≤ c.toNat ∧ c.toNat ≤ 57) (hne : l1 ≠ []) :
    ∀ (l2 : List Char) (flag : Bool),
      validAccountChars (l1 ++ l2) flag = validAccountChars l2 false := by
  induction l1 with
  | nil => exact absurd rfl hne
  | cons c l1 ih =>
    intro l2 flag
    rw [List.cons_append,
      validAccountChars_alnum_cons c (l1 ++ l2) flag
        (Or.inr (hd c (List.mem_cons_self c l1)))]
    cases l1 with
    | nil => rfl
    | cons c2 l1t =>
      exact ih (fun x hx => hd x (List.mem_cons_of_mem c hx)) (by simp) l2 false

theorem zeroPad_digits (w n : Nat) (c : Char) (hc : c ∈ zeroPad w n) :
    48 ≤ c.toNat ∧ c.toNat ≤ 57 := by
  rw [zeroPad, List.mem_append] at hc
  rcases hc with h | h
  · rw [List.eq_of_mem_replicate h]
    decide
  · exact natDigits_digits n c h

theorem zeroPad_length (w n : Nat) (hw : (natDigits n).length ≤ w) :
    (zeroPad w n).length = w := by
  rw [zeroPad, List.length_append, List.length_replicate]
  omega

theorem zeroPad_ne_nil (w n : Nat) : zeroPad w n ≠ [] := by
  rw [zeroPad]
  intro hcon
  rcases List.append_eq_nil.mp hcon with ⟨_, h2⟩
  exact natDigits_ne_nil n h2

theorem fmtTimestamp_digits (t : UtcTime) :
    ∀ c ∈ (fmtTimestamp t).data, 48 ≤ c.toNat ∧ c.toNat ≤ 57 := by
  intro c hc
  simp only [fmtTimestamp, List.mem_append] at hc
  rcases hc with ((((h | h) | h) | h) | h) | h <;> exact zeroPad_digits _ _ c h

theorem fmtTimestamp_length (t : UtcTime) (hy : t.year < 10000) (hmo : t.month < 100)
    (hd : t.day < 100) (hh : t.hour < 100) (hmi : t.minute < 100) (hs : t.second < 100) :
    (fmtTimestamp t).data.length = 14 := by
  have l4 : (zeroPad 4 t.year).length = 4 :=
    zeroPad_length 4 t.year (natDigits_length_le t.year 4 (by norm_num; omega) (by omega))
  have l2m : (zeroPad 2 t.month).length = 2 :=
    zeroPad_length 2 t.month (natDigits_length_le t.month 2 (by norm_num; omega) (by omega))
  have l2d : (zeroPad 2 t.day).length = 2 :=
    zeroPad_length 2 t.day (natDigits_length_le t.day 2 (by norm_num; omega) (by omega))
  have l2h : (zeroPad 2 t.hour).length = 2 :=
    zeroPad_length 2 t.hour (natDigits_length_le t.hour 2 (by norm_num; omega) (by omega))
  have l2mi : (zeroPad 2 t.minute).length = 2 :=
    zeroPad_length 2 t.minute (natDigits_length_le t.minute 2 (by norm_num; omega) (by omega))
  have l2s : (zeroPad 2 t.second).length = 2 :=
    zeroPad_length 2 t.second (natDigits_length_le t.second 2 (by norm_num; omega) (by omega))
  simp only [fmtTimestamp, List.length_append]
  omega

theorem fmtTimestamp_ne_nil (t : UtcTime) : (fmtTimestamp t).data ≠ [] := by
  simp only [fmtTimestamp]
  intro hcon
  rcases List.append_eq_nil.mp hcon with ⟨_, h2⟩
  exact zeroPad_ne_nil 2 t.second h2

/-- C9: the generated dev-account identifier is exactly
`dev-{timestamp}-{random_num}` for the sampled UTC second and the 14-digit
random suffix, and it satisfies the account-identifier syntax, so the
conversion guard (whose failure would be a hard failure, modelled by `none`)
passes. -/
theorem random_account_id_generates_valid (t : UtcTime) (r : Nat)
    (hy : t.year < 10000) (hmo : t.month < 100) (hd : t.day < 100)
    (hh : t.hour < 100) (hmi : t.minute < 100) (hs : t.second < 100)
    (hr1 : 10000000000000 ≤ r) (hr2 : r < 99999999999999) :
    random_account_id t r =
      some ("dev-" ++ fmtTimestamp t ++ "-" ++ natToString r) ∧
    validAccountId ("dev-" ++ fmtTimestamp t ++ "-" ++ natToString r) = true ∧
    (natToString r).data.length = 14 := by
  have hrdlen : (natDigits r).length = 14 := by
    have hle : (natDigits r).length ≤ 14 :=
      natDigits_length_le r 14 (by norm_num; omega) (by omega)
    have hge : 13 + 1 ≤ (natDigits r).length :=
      natDigits_length_ge r 13 (by norm_num; omega)
    omega
  have hdata : ("dev-" ++ fmtTimestamp t ++ "-" ++ natToString r).data =
      'd' :: 'e' :: 'v' :: '-' :: ((fmtTimestamp t).data ++ ('-' :: natDigits r)) := by
    simp [String.data_append, natToString, List.append_assoc]
  have hchars : validAccountChars
      (("dev-" ++ fmtTimestamp t ++ "-" ++ natToString r).data) true = true := by
    rw [hdata]
    rw [validAccountChars_alnum_cons _ _ _ (by decide)]
    rw [validAccountChars_alnum_cons _ _ _ (by decide)]
    rw [validAccountChars_alnum_cons _ _ _ (by decide)]
    rw [validAccountChars_sep_cons _ _ _ (by decide) (by decide)]
    rw [Bool.not_false, Bool.true_and]
    rw [validAccountChars_digits_append _ (fmtTimestamp_digits t) (fmtTimestamp_ne_nil t)]
    rw [validAccountChars_sep_cons _ _ _ (by decide) (by decide)]
    rw [Bool.not_false, Bool.true_and]
    have := validAccountChars_digits_append (natDigits r) (natDigits_digits r)
      (natDigits_ne_nil r) [] true
    rw [List.append_nil] at this
    rw [this]
    rfl
  have hlen : ("dev-" ++ fmtTimestamp t ++ "-" ++ natToString r).data.length = 33 := by
    rw [hdata]
    simp only [List.length_cons, List.length_append]
    rw [fmtTimestamp_length t hy hmo hd hh hmi hs]
    omega
  have hvalid : validAccountId ("dev-" ++ fmtTimestamp t ++ "-" ++ natToString r) = true := by
    rw [validAccountId, hlen, hchars]
    decide
  refine ⟨?_, hvalid, hrdlen⟩
  unfold random_account_id
  rw [if_pos hvalid]

/-- Witness for C9 at the timestamp and suffix of the repository's own
pre-generated dev-account identifier. -/
theorem random_account_id_generates_valid_witness :
    random_account_id ⟨2021, 10, 13, 0, 21, 48⟩ 59466083160385 =
      some ("dev-" ++ fmtTimestamp ⟨2021, 10, 13, 0, 21, 48⟩ ++ "-"
        ++ natToString 59466083160385) ∧
    validAccountId ("dev-" ++ fmtTimestamp ⟨2021, 10, 13, 0, 21, 48⟩ ++ "-"
      ++ natToString 59466083160385) = true ∧
    (natToString 59466083160385).data.length = 14 :=
  random_account_id_generates_valid ⟨2021, 10, 13, 0, 21, 48⟩ 59466083160385
    (by decide) (by decide) (by decide) (by decide) (by decide) (by decide)
    (by decide) (by decide)

/-! ## Lemmas: base64 -/

theorem dec64_enc64 : ∀ s, s < 64 → dec64 (enc64 s) = some s := by decide

theorem enc64_ne_pad : ∀ s, s < 64 → enc64 s ≠ 61 := by decide

theorem b64decode_full_group (a b c : Nat) (rest : List Nat)
    (ha : a < 256) (hb : b < 256) (hc : c < 256) :
    b64decode (enc64 (a / 4) :: enc64 (a % 4 * 16 + b / 16) ::
        enc64 (b % 16 * 4 + c / 64) :: enc64 (c % 64) :: rest) =
      (b64decode rest).map (fun t => a :: b :: c :: t) := by
  have h1 := dec64_enc64 (a / 4) (by omega)
  have h2 := dec64_enc64 (a % 4 * 16 + b / 16) (by omega)
  have h3 := dec64_enc64 (b % 16 * 4 + c / 64) (by omega)
  have h4 := dec64_enc64 (c % 64) (by omega)
  have hne3 := enc64_ne_pad (b % 16 * 4 + c / 64) (by omega)
  have hne4 := enc64_ne_pad (c % 64) (by omega)
  rw [b64decode, h1, Option.some_bind, h2, Option.some_bind, if_neg hne3,
    h3, Option.some_bind, if_neg hne4, h4, Option.some_bind]
  have ea : a / 4 * 4 + (a % 4 * 16 + b / 16) / 16 = a := by omega
  have eb : (a % 4 * 16 + b / 16) % 16 * 16 + (b % 16 * 4 + c / 64) / 4 = b := by omega
  have ec : (b % 16 * 4 + c / 64) % 4 * 64 + c % 64 = c := by omega
  simp only [ea, eb, ec]

theorem b64decode_one_tail (a : Nat) (ha : a < 256) :
    b64decode [enc64 (a / 4), enc64 (a % 4 * 16), 61, 61] = some [a] := by
  have h1 := dec64_enc64 (a / 4) (by omega)
  have h2 := dec64_enc64 (a % 4 * 16) (by omega)
  rw [b64decode, h1, Option.some_bind, h2, Option.some_bind, if_pos rfl,
    if_pos ⟨rfl, rfl, by omega⟩]
  have ea : a / 4 * 4 + a % 4 * 16 / 16 = a := by omega
  rw [ea]

theorem b64decode_two_tail (a b : Nat) (ha : a < 256) (hb : b < 256) :
    b64decode [enc64 (a / 4), enc64 (a % 4 * 16 + b / 16), enc64 (b % 16 * 4), 61] =
      some [a, b] := by
  have h1 := dec64_enc64 (a / 4) (by omega)
  have h2 := dec64_enc64 (a % 4 * 16 + b / 16) (by omega)
  have h3 := dec64_enc64 (b % 16 * 4) (by omega)
  have hne3 := enc64_ne_pad (b % 16 * 4) (by omega)
  rw [b64decode, h1, Option.some_bind, h2, Option.some_bind, if_neg hne3,
    h3, Option.some_bind, if_pos rfl, if_pos ⟨rfl, by omega⟩]
  have ea : a / 4 * 4 + (a % 4 * 16 + b / 16) / 16 = a := by omega
  have eb : (a % 4 * 16 + b / 16) % 16 * 16 + b % 16 * 4 / 4 = b := by omega
  rw [ea, eb]

theorem b64_roundtrip (bs : List Nat) (h : ∀ x ∈ bs, x < 256) :
    b64decode (b64encode bs) = some bs := by
  induction bs using b64encode.induct with
  | case1 => rfl
  | case2 a =>
    rw [b64encode]
    exact b64decode_one_tail a (h a (by simp))
  | case3 a b =>
    rw [b64encode]
    exact b64decode_two_tail a b (h a (by simp)) (h b (by simp))
  | case4 a b c rest ih =>
    rw [b64encode, b64decode_full_group a b c (b64encode rest)
      (h a (by simp)) (h b (by simp)) (h c (by simp)),
      ih (fun x hx => h x (by simp [hx]))]
    rfl

/-! ## Lemmas: UTF-8 -/

theorem utf8EncodeChar_bytes_lt (n : Nat) (h : n < 0x110000) :
    ∀ b ∈ utf8EncodeChar n, b < 256 := by
  intro b hb
  rw [utf8EncodeChar] at hb
  by_cases h1 : n < 0x80
  · rw [if_pos h1] at hb
    simp at hb
    omega
  · rw [if_neg h1] at hb
    by_cases h2 : n < 0x800
    · rw [if_pos h2] at hb
      simp at hb
      rcases hb with rfl | rfl <;> omega
    · rw [if_neg h2] at hb
      by_cases h3 : n < 0x10000
      · rw [if_pos h3] at hb
        simp at hb
        rcases hb with rfl | rfl | rfl <;> omega
      · rw [if_neg h3] at hb
        simp at hb
        rcases hb with rfl | rfl | rfl | rfl <;> omega

theorem utf8Encode_bytes_lt (cps : List Nat) (hv : ∀ c ∈ cps, ValidCp c) :
    ∀ b ∈ utf8Encode cps, b < 256 := by
  intro b hb
  rw [utf8Encode, List.mem_flatten] at hb
  obtain ⟨l, hl, hbl⟩ := hb
  rw [List.mem_map] at hl
  obtain ⟨c, hc, rfl⟩ := hl
  exact utf8EncodeChar_bytes_lt c (hv c hc).2 b hbl

theorem utf8EncodeChar_ne_nil (n : Nat) : utf8EncodeChar n ≠ [] := by
  rw [utf8EncodeChar]
  by_cases h1 : n < 0x80
  · rw [if_pos h1]
    simp
  · rw [if_neg h1]
    by_cases h2 : n < 0x800
    · rw [if_pos h2]
      simp
    · rw [if_neg h2]
      by_cases h3 : n < 0x10000
      · rw [if_pos h3]
        simp
      · rw [if_neg h3]
        simp

theorem utf8DecodeCore_encodeChar (fuel : Nat) (n : Nat) (hv : ValidCp n)
    (tail : List Nat) :
    utf8DecodeCore (fuel + 1) (utf8EncodeChar n ++ tail) =
      (utf8DecodeCore fuel tail).map (fun l => n :: l) := by
  obtain ⟨hsur, hlt⟩ := hv
  rw [utf8EncodeChar]
  by_cases h1 : n < 0x80
  · rw [if_pos h1, List.singleton_append]
    have hc : utf8DecodeChar1 n tail = some (n, tail) := by
      simp only [utf8DecodeChar1]
      rw [if_pos h1]
    rw [utf8DecodeCore]
    simp only [hc]
  · rw [if_neg h1]
    by_cases h2 : n < 0x800
    · rw [if_pos h2, List.cons_append, List.cons_append, List.nil_append]
      have hcont : isCont (0x80 + n % 64) = true := by
        simp only [isCont, decide_eq_true_eq]
        omega
      have hc : utf8DecodeChar1 (0xC0 + n / 64) ((0x80 + n % 64) :: tail) =
          some (n, tail) := by
        simp only [utf8DecodeChar1]
        rw [if_neg (by omega), if_neg (by omega), if_pos (by omega), if_pos hcont]
        have hn : (0xC0 + n / 64 - 0xC0) * 64 + (0x80 + n % 64 - 0x80) = n := by omega
        rw [hn]
      rw [utf8DecodeCore]
      simp only [hc]
    · rw [if_neg h2]
      by_cases h3 : n < 0x10000
      · rw [if_pos h3, List.cons_append, List.cons_append, List.cons_append,
          List.nil_append]
        have hcont1 : isCont (0x80 + n / 64 % 64) = true := by
          simp only [isCont, decide_eq_true_eq]
          omega
        have hcont2 : isCont (0x80 + n % 64) = true := by
          simp only [isCont, decide_eq_true_eq]
          omega
        have hc : utf8DecodeChar1 (0xE0 + n / 4096)
            ((0x80 + n / 64 % 64) :: (0x80 + n % 64) :: tail) = some (n, tail) := by
          simp only [utf8DecodeChar1]
          rw [if_neg (by omega), if_neg (by omega), if_neg (by omega), if_pos (by omega),
            if_pos ⟨hcont1, hcont2⟩]
          have hn : (0xE0 + n / 4096 - 0xE0) * 4096 + (0x80 + n / 64 % 64 - 0x80) * 64 +
              (0x80 + n % 64 - 0x80) = n := by omega
          rw [hn, if_pos ⟨by omega, hsur⟩]
        rw [utf8DecodeCore]
        simp only [hc]
      · rw [if_neg h3, List.cons_append, List.cons_append, List.cons_append,
          List.cons_append, List.nil_append]
        have hcont1 : isCont (0x80 + n / 4096 % 64) = true := by
          simp only [isCont, decide_eq_true_eq]
          omega
        have hcont2 : isCont (0x80 + n / 64 % 64) = true := by
          simp only [isCont, decide_eq_true_eq]
          omega
        have hcont3 : isCont (0x80 + n % 64) = true := by
          simp only [isCont, decide_eq_true_eq]
          omega
        have hc : utf8DecodeChar1 (0xF0 + n / 0x40000)
            ((0x80 + n / 4096 % 64) :: (0x80 + n / 64 % 64) :: (0x80 + n % 64) :: tail) =
            some (n, tail) := by
          simp only [utf8DecodeChar1]
          rw [if_neg (by omega), if_neg (by omega), if_neg (by omega), if_neg (by omega),
            if_pos (by omega), if_pos ⟨hcont1, hcont2, hcont3⟩]
          have hn : (0xF0 + n / 0x40000 - 0xF0) * 0x40000 + (0x80 + n / 4096 % 64 - 0x80) *
              4096 + (0x80 + n / 64 % 64 - 0x80) * 64 + (0x80 + n % 64 - 0x80) = n := by
            omega
          rw [hn, if_pos ⟨by omega, by omega⟩]
        rw [utf8DecodeCore]
        simp only [hc]

theorem utf8DecodeCore_encode (cps : List Nat) (hv : ∀ c ∈ cps, ValidCp c) :
    ∀ fuel, cps.length < fuel → utf8DecodeCore fuel (utf8Encode cps) = some cps := by
  induction cps with
  | nil =>
    intro fuel hf
    cases fuel with
    | zero => omega
    | succ f => rfl
  | cons c cps ih =>
    intro fuel hf
    cases fuel with
    | zero => omega
    | succ f =>
      have henc : utf8Encode (c :: cps) = utf8EncodeChar c ++ utf8Encode cps := by
        simp [utf8Encode]
      rw [henc, utf8DecodeCore_encodeChar f c (hv c (List.mem_cons_self c cps)),
        ih (fun x hx => hv x (List.mem_cons_of_mem c hx)) f (by simpa using hf)]
      rfl

theorem length_le_utf8Encode_length (cps : List Nat) :
    cps.length ≤ (utf8Encode cps).length := by
  induction cps with
  | nil => simp [utf8Encode]
  | cons c cps ih =>
    have henc : utf8Encode (c :: cps) = utf8EncodeChar c ++ utf8Encode cps := by
      simp [utf8Encode]
    rw [henc, List.length_append, List.length_cons]
    have : 1 ≤ (utf8EncodeChar c).length :=
      List.length_pos.mpr (utf8EncodeChar_ne_nil c)
    omega

theorem utf8_roundtrip (cps : List Nat) (hv : ∀ c ∈ cps, ValidCp c) :
    utf8Decode (utf8Encode cps) = some cps := by
  rw [utf8Decode]
  exact utf8DecodeCore_encode cps hv ((utf8Encode cps).length + 1)
    (by have := length_le_utf8Encode_length cps; omega)

/-! ## Lemmas: state decoding -/

theorem itemDecode_encodeStateItem (k v : List Nat)
    (hk : ∀ c ∈ k, ValidCp c) (hv : ∀ b ∈ v, b < 256) :
    itemDecode (encodeStateItem k v) = .ok (k, v) := by
  have h1 : b64decode (b64encode (utf8Encode k)) = some (utf8Encode k) :=
    b64_roundtrip (utf8Encode k) (utf8Encode_bytes_lt k hk)
  have h2 : utf8Decode (utf8Encode k) = some k := utf8_roundtrip k hk
  have h3 : b64decode (b64encode v) = some v := b64_roundtrip v hv
  simp only [itemDecode, encodeStateItem, h1, h2, h3]

theorem foldl_stateStep_error (items : List StateItem) (e : String) :
    items.foldl stateStep (.error e) = .error e := by
  induction items with
  | nil => rfl
  | cons s items ih =>
    rw [List.foldl_cons]
    exact ih

theorem find?_append_or {α : Type} (p : α → Bool) (l1 l2 : List α) :
    List.find? p (l1 ++ l2) = (List.find? p l1).or (List.find? p l2) := by
  induction l1 with
  | nil => rfl
  | cons c l1 ih =>
    rw [List.cons_append]
    cases hpc : p c with
    | true =>
      rw [List.find?_cons_of_pos _ hpc, List.find?_cons_of_pos _ hpc]
      rfl
    | false =>
      rw [List.find?_cons_of_neg _ (by simp [hpc]), List.find?_cons_of_neg _ (by simp [hpc]),
        ih]

theorem hmFind_hmInsert (m : StateMap) (k0 v0 k : List Nat) :
    hmFind (hmInsert m k0 v0) k = if k0 = k then some v0 else hmFind m k := by
  induction m with
  | nil =>
    rfl
  | cons p m ih =>
    obtain ⟨k1, v1⟩ := p
    by_cases h01 : k1 = k0
    · subst h01
      rw [hmInsert, if_pos rfl]
      by_cases hk : k1 = k
      · rw [hmFind, if_pos hk, if_pos hk]
      · rw [hmFind, if_neg hk, if_neg hk, hmFind, if_neg hk]
    · rw [hmInsert, if_neg h01]
      by_cases hk : k1 = k
      · have hk0 : ¬ k0 = k := by
          intro hcon
          exact h01 (hk.trans hcon.symm)
        rw [hmFind, if_pos hk, if_neg hk0, hmFind, if_pos hk]
      · rw [hmFind, if_neg hk, ih]
        by_cases hk0 : k0 = k
        · rw [if_pos hk0, if_pos hk0]
        · rw [if_neg hk0, if_neg hk0, hmFind, if_neg hk]

theorem decodedPairs_cons_ok (s : StateItem) (items : List StateItem)
    (kv : List Nat × List Nat) (h : itemDecode s = .ok kv) :
    decodedPairs (s :: items) = kv :: decodedPairs items := by
  simp [decodedPairs, h, Except.toOption]

theorem foldl_stateStep_ok (items : List StateItem)
    (hall : ∀ s ∈ items, ∃ kv, itemDecode s = .ok kv) :
    ∀ m : StateMap, ∃ m2, items.foldl stateStep (.ok m) = .ok m2 ∧
      ∀ k, hmFind m2 k =
        (((decodedPairs items).reverse.find? (fun p => p.1 == k)).map
          (fun p => p.2)).or (hmFind m k) := by
  induction items with
  | nil =>
    intro m
    refine ⟨m, rfl, fun k => ?_⟩
    simp [decodedPairs]
  | cons s items ih =>
    intro m
    obtain ⟨⟨k0, v0⟩, hs⟩ := hall s (List.mem_cons_self s items)
    have hstep : stateStep (.ok m) s = .ok (hmInsert m k0 v0) := by
      simp only [stateStep, hs]
    obtain ⟨m2, hm2, hfind⟩ :=
      ih (fun x hx => hall x (List.mem_cons_of_mem s hx)) (hmInsert m k0 v0)
    rw [List.foldl_cons, hstep]
    refine ⟨m2, hm2, fun k => ?_⟩
    rw [hfind k, decodedPairs_cons_ok s items (k0, v0) hs, List.reverse_cons,
      find?_append_or, hmFind_hmInsert]
    cases hfr : List.find? (fun p => p.1 == k) (decodedPairs items).reverse with
    | some p => rfl
    | none =>
      by_cases hk0 : k0 = k
      · subst hk0
        simp [List.find?]
      · have : (k0 == k) = false := by simp [hk0]
        simp [List.find?, this, hk0]

theorem foldl_stateStep_fails (items : List StateItem) :
    ∀ m : StateMap, (∃ s ∈ items, ∃ e, itemDecode s = .error e) →
      ∃ e2, items.foldl stateStep (.ok m) = .error e2 := by
  induction items with
  | nil =>
    intro m h
    simp at h
  | cons s items ih =>
    intro m h
    cases hsd : itemDecode s with
    | error e0 =>
      have hstep : stateStep (.ok m) s = .error e0 := by
        simp only [stateStep, hsd]
      rw [List.foldl_cons, hstep, foldl_stateStep_error]
      exact ⟨e0, rfl⟩
    | ok kv =>
      obtain ⟨k0, v0⟩ := kv
      have hstep : stateStep (.ok m) s = .ok (hmInsert m k0 v0) := by
        simp only [stateStep, hsd]
      rw [List.foldl_cons, hstep]
      apply ih
      rcases h with ⟨s2, hmem, e, he⟩
      rcases List.mem_cons.mp hmem with rfl | hmem2
      · rw [hsd] at he
        exact absurd he (by simp)
      · exact ⟨s2, hmem2, e, he⟩

theorem itemFails_iff (s : StateItem) : itemFails s ↔ ∃ e, itemDecode s = .error e := by
  cases hk : b64decode s.key with
  | none => simp [itemFails, itemDecode, hk]
  | some kb =>
    cases hu : utf8Decode kb with
    | none => simp [itemFails, itemDecode, hk, hu]
    | some k =>
      cases hv : b64decode s.value with
      | none => simp [itemFails, itemDecode, hk, hu, hv]
      | some v => simp [itemFails, itemDecode, hk, hu, hv]

theorem not_itemFails_ok (s : StateItem) (h : ¬ itemFails s) :
    ∃ kv, itemDecode s = .ok kv := by
  cases hd : itemDecode s with
  | ok kv => exact ⟨kv, rfl⟩
  | error e => exact absurd ((itemFails_iff s).mpr ⟨e, hd⟩) h

/-! ## Claim C6: all-or-nothing state decoding -/

/-- C6: if any item's key or value fails base64 decoding or its decoded key
is not UTF-8, `into_state_map` returns an error for the whole sequence (so
no partial mapping is produced); if every item decodes, it returns a map
associating each decoded key with the raw value bytes of its latest
occurrence. -/
theorem into_state_map_all_or_nothing (items : List StateItem) :
    ((∃ s ∈ items, itemFails s) → ∃ e, into_state_map items = .error e) ∧
    ((∀ s ∈ items, ¬ itemFails s) →
      ∃ m, into_state_map items = .ok m ∧
        ∀ k, hmFind m k = lastDecodedValue items k) := by
  constructor
  · rintro ⟨s, hs, hfail⟩
    obtain ⟨e, he⟩ := (itemFails_iff s).mp hfail
    rw [into_state_map]
    exact foldl_stateStep_fails items [] ⟨s, hs, e, he⟩
  · intro hall
    obtain ⟨m2, hm2, hfind⟩ :=
      foldl_stateStep_ok items (fun s hs => not_itemFails_ok s (hall s hs)) []
    rw [into_state_map]
    refine ⟨m2, hm2, fun k => ?_⟩
    rw [hfind k, lastDecodedValue]
    have : hmFind [] k = none := rfl
    rw [this, Option.or_none]

/-- Witness for C6: a malformed item fails the whole decoding; a well-formed
singleton decodes to its pair. -/
theorem into_state_map_all_or_nothing_witness :
    (∃ e, into_state_map [⟨[33], []⟩] = .error e) ∧
    (∃ m, into_state_map [encodeStateItem [104] [5]] = .ok m ∧
      ∀ k, hmFind m k = lastDecodedValue [encodeStateItem [104] [5]] k) := by
  constructor
  · exact (into_state_map_all_or_nothing [⟨[33], []⟩]).1
      ⟨⟨[33], []⟩, by simp, by decide⟩
  · exact (into_state_map_all_or_nothing [encodeStateItem [104] [5]]).2
      (by
        intro s hs
        rw [List.mem_singleton] at hs
        subst hs
        decide)

/-! ## Claim C5: state-map round trip -/

theorem hmInsert_fresh (m : StateMap) (k v : List Nat) (hk : ∀ p ∈ m, p.1 ≠ k) :
    hmInsert m k v = m ++ [(k, v)] := by
  induction m with
  | nil => rfl
  | cons p m ih =>
    obtain ⟨k1, v1⟩ := p
    have hne : k1 ≠ k := hk (k1, v1) (List.mem_cons_self _ _)
    rw [hmInsert, if_neg hne, List.cons_append,
      ih (fun q hq => hk q (List.mem_cons_of_mem _ hq))]

theorem foldl_stateStep_encoded (ps : List (List Nat × List Nat))
    (hvalid : ∀ p ∈ ps, (∀ c ∈ p.1, ValidCp c) ∧ (∀ b ∈ p.2, b < 256))
    (hnd : (ps.map Prod.fst).Nodup) :
    ∀ acc : StateMap, (∀ p ∈ ps, ∀ q ∈ acc, q.1 ≠ p.1) →
      (ps.map (fun p => encodeStateItem p.1 p.2)).foldl stateStep (.ok acc) =
        .ok (acc ++ ps) := by
  induction ps with
  | nil =>
    intro acc hacc
    simp
  | cons p ps ih =>
    intro acc hacc
    obtain ⟨k0, v0⟩ := p
    have hmem0 : (k0, v0) ∈ (k0, v0) :: ps := List.mem_cons_self _ _
    have hdec : itemDecode (encodeStateItem k0 v0) = .ok (k0, v0) :=
      itemDecode_encodeStateItem k0 v0 (hvalid (k0, v0) hmem0).1 (hvalid (k0, v0) hmem0).2
    have hstep : stateStep (.ok acc) (encodeStateItem k0 v0) = .ok (hmInsert acc k0 v0) := by
      simp only [stateStep, hdec]
    have hfresh : hmInsert acc k0 v0 = acc ++ [(k0, v0)] :=
      hmInsert_fresh acc k0 v0 (fun q hq => hacc (k0, v0) hmem0 q hq)
    rw [List.map_cons, List.foldl_cons, hstep, hfresh]
    have hnd2 : (ps.map Prod.fst).Nodup := (List.nodup_cons.mp hnd).2
    have hk0notin : k0 ∉ ps.map Prod.fst := (List.nodup_cons.mp hnd).1
    have hacc2 : ∀ p2 ∈ ps, ∀ q ∈ acc ++ [(k0, v0)], q.1 ≠ p2.1 := by
      intro p2 hp2 q hq
      rcases List.mem_append.mp hq with hq1 | hq2
      · exact hacc p2 (List.mem_cons_of_mem _ hp2) q hq1
      · rw [List.mem_singleton] at hq2
        subst hq2
        intro hcon
        exact hk0notin (by
          rw [List.mem_map]
          exact ⟨p2, hp2, hcon.symm⟩)
    rw [ih (fun p2 hp2 => hvalid p2 (List.mem_cons_of_mem _ hp2)) hnd2
      (acc ++ [(k0, v0)]) hacc2]
    rw [List.append_assoc, List.singleton_append]

/-- C5: encoding a mapping with pairwise-distinct keys (UTF-8 keys, byte
values) into base64 (key, value) state items and decoding the sequence with
`into_state_map` yields exactly the original mapping. -/
theorem into_state_map_roundtrip (m : List (List Nat × List Nat))
    (hnd : (m.map Prod.fst).Nodup)
    (hvalid : ∀ p ∈ m, (∀ c ∈ p.1, ValidCp c) ∧ (∀ b ∈ p.2, b < 256)) :
    into_state_map (m.map (fun p => encodeStateItem p.1 p.2)) = .ok m := by
  rw [into_state_map]
  have := foldl_stateStep_encoded m hvalid hnd [] (by simp)
  simpa using this

/-- Witness for C5 on a two-entry mapping with a multi-byte UTF-8 key. -/
theorem into_state_map_roundtrip_witness :
    into_state_map ([([104, 105], [1, 2]), ([8364], [0, 255])].map
        (fun p => encodeStateItem p.1 p.2)) =
      .ok [([104, 105], [1, 2]), ([8364], [0, 255])] :=
  into_state_map_roundtrip [([104, 105], [1, 2]), ([8364], [0, 255])]
    (by decide) (by decide)

/-! ## Claim C10: duplicate decoded keys -/

theorem hmCount_hmInsert_ne (m : StateMap) (k0 v0 k : List Nat) (hne : k0 ≠ k) :
    hmCount (hmInsert m k0 v0) k = hmCount m k := by
  induction m with
  | nil => simp [hmInsert, hmCount, List.countP_cons, hne]
  | cons p m ih =>
    obtain ⟨k1, v1⟩ := p
    by_cases h01 : k1 = k0
    · subst h01
      rw [hmInsert, if_pos rfl]
      simp [hmCount, List.countP_cons]
    · rw [hmInsert, if_neg h01]
      simp only [hmCount, List.countP_cons] at ih ⊢
      omega

theorem hmCount_hmInsert_self (m : StateMap) (k0 v0 : List Nat)
    (hle : hmCount m k0 ≤ 1) :
    hmCount (hmInsert m k0 v0) k0 = 1 := by
  induction m with
  | nil => simp [hmInsert, hmCount, List.countP_cons]
  | cons p m ih =>
    obtain ⟨k1, v1⟩ := p
    by_cases h01 : k1 = k0
    · subst h01
      rw [hmInsert, if_pos rfl]
      simp only [hmCount, List.countP_cons, beq_self_eq_true, if_true] at hle ⊢
      omega
    · rw [hmInsert, if_neg h01]
      have hb : (k1 == k0) = false := by simp [h01]
      simp only [hmCount, List.countP_cons, hb, Bool.false_eq_true, if_false] at hle ⊢
      have hle2 : hmCount m k0 ≤ 1 := by
        simp only [hmCount]
        omega
      have hins := ih hle2
      simp only [hmCount] at hins
      omega

theorem hmFind_some_count (m : StateMap) (k v : List Nat) (h : hmFind m k = some v) :
    1 ≤ hmCount m k := by
  induction m with
  | nil => exact absurd h (by simp [hmFind])
  | cons p m ih =>
    obtain ⟨k1, v1⟩ := p
    rw [hmFind] at h
    by_cases hk : k1 = k
    · simp [hmCount, List.countP_cons, hk]
    · rw [if_neg hk] at h
      have hrec := ih h
      have hb : (k1 == k) = false := by simp [hk]
      simp only [hmCount, List.countP_cons, hb] at hrec ⊢
      omega

theorem foldl_stateStep_count_le (items : List StateItem) :
    ∀ macc m, (∀ k, hmCount macc k ≤ 1) →
      items.foldl stateStep (.ok macc) = .ok m → ∀ k, hmCount m k ≤ 1 := by
  induction items with
  | nil =>
    intro macc m hinv heq k
    rw [List.foldl_nil] at heq
    cases heq
    exact hinv k
  | cons s items ih =>
    intro macc m hinv heq k
    cases hsd : itemDecode s with
    | error e =>
      rw [List.foldl_cons, show stateStep (.ok macc) s = .error e by
        simp only [stateStep, hsd], foldl_stateStep_error] at heq
      exact absurd heq (by simp)
    | ok kv =>
      obtain ⟨k0, v0⟩ := kv
      rw [List.foldl_cons, show stateStep (.ok macc) s = .ok (hmInsert macc k0 v0) by
        simp only [stateStep, hsd]] at heq
      refine ih (hmInsert macc k0 v0) m ?_ heq k
      intro k2
      by_cases hk2 : k0 = k2
      · subst hk2
        rw [hmCount_hmInsert_self macc k0 v0 (hinv k0)]
      · rw [hmCount_hmInsert_ne macc k0 v0 k2 hk2]
        exact hinv k2

theorem except_toOption_ok {ε α : Type} (x : Except ε α) (a : α) :
    x.toOption = some a ↔ x = .ok a := by
  cases x <;> simp [Except.toOption]

theorem mem_decodedPairs (items : List StateItem) (p : List Nat × List Nat)
    (hp : p ∈ decodedPairs items) : ∃ s ∈ items, itemDecode s = .ok p := by
  rw [decodedPairs, List.mem_filterMap] at hp
  obtain ⟨s, hs, hsome⟩ := hp
  exact ⟨s, hs, (except_toOption_ok _ _).mp hsome⟩

/-- C10: if two items of a (fully decodable) sequence decode to the same key
`k` — the later one, after which no item carries `k`, holding `v2` — then
`into_state_map` reports no error: it succeeds, and the resulting map holds
exactly one entry for `k`, whose value is `v2`, the value of the later
duplicate; duplicate keys are silently collapsed rather than rejected. -/
theorem into_state_map_duplicate_keys (items pre mid post : List StateItem)
    (s1 s2 : StateItem) (k v1 v2 : List Nat)
    (hitems : items = pre ++ s1 :: (mid ++ s2 :: post))
    (h1 : itemDecode s1 = .ok (k, v1)) (h2 : itemDecode s2 = .ok (k, v2))
    (hall : ∀ s ∈ items, ¬ itemFails s)
    (hpost : ∀ s ∈ post, ∀ kv, itemDecode s = .ok kv → kv.1 ≠ k) :
    ∃ m, into_state_map items = .ok m ∧ hmFind m k = some v2 ∧ hmCount m k = 1 := by
  obtain ⟨m, hm, hfind⟩ :=
    foldl_stateStep_ok items (fun s hs => not_itemFails_ok s (hall s hs)) []
  have hdp : decodedPairs items =
      decodedPairs pre ++ ((k, v1) :: (decodedPairs mid ++ ((k, v2) :: decodedPairs post))) := by
    rw [hitems]
    simp [decodedPairs, List.filterMap_append, List.filterMap_cons, h1, h2, Except.toOption]
  have hrev : (decodedPairs items).reverse =
      (decodedPairs post).reverse ++ ((k, v2) :: ((decodedPairs mid).reverse ++
        ((k, v1) :: (decodedPairs pre).reverse))) := by
    rw [hdp]
    simp [List.reverse_append, List.reverse_cons, List.append_assoc]
  have hnone : List.find? (fun p => p.1 == k) (decodedPairs post).reverse = none := by
    rw [List.find?_eq_none]
    intro x hx
    rw [List.mem_reverse] at hx
    obtain ⟨s, hs, hsd⟩ := mem_decodedPairs post x hx
    have := hpost s hs x hsd
    simp [this]
  have hfk : hmFind m k = some v2 := by
    rw [hfind k, hrev, find?_append_or, hnone]
    have hpos : List.find? (fun p => p.1 == k)
        ((k, v2) :: ((decodedPairs mid).reverse ++ ((k, v1) :: (decodedPairs pre).reverse))) =
          some (k, v2) :=
      List.find?_cons_of_pos _ (by simp)
    rw [hpos]
    rfl
  have hle := foldl_stateStep_count_le items [] m
    (by intro k2; simp [hmCount]) hm k
  have hge := hmFind_some_count m k v2 hfk
  exact ⟨m, by rw [into_state_map]; exact hm, hfk, by omega⟩

/-- Witness for C10: two items share the decoded key `h` (code point 104);
decoding succeeds with the later value and a single entry. -/
theorem into_state_map_duplicate_keys_witness :
    ∃ m, into_state_map [encodeStateItem [104] [1], encodeStateItem [104] [2]] = .ok m ∧
      hmFind m [104] = some [2] ∧ hmCount m [104] = 1 :=
  into_state_map_duplicate_keys
    [encodeStateItem [104] [1], encodeStateItem [104] [2]] [] []
    [] (encodeStateItem [104] [1]) (encodeStateItem [104] [2]) [104] [1] [2]
    rfl (by decide) (by decide)
    (by
      intro s hs
      rcases List.mem_cons.mp hs with rfl | hs2
      · decide
      · rw [List.mem_singleton] at hs2
        subst hs2
        decide)
    (by simp)
